import Mathlib

/-!
# A verification of the Puppeteer query-handler subsystem

This file embeds `src/common/QueryHandler.ts` — the query-handler registry, the
raw-to-internal handler adapter, the selector resolver, and the remote-iterator
bridge behind the adapted `queryAll` — as executable Lean definitions, and proves
the subsystem's specified properties about them.

The remote side (the page) is modelled observationally: a remote value is either
a DOM element or a non-element, an `evaluateHandle` round-trip wraps a value in a
fresh handle, and an explicit ledger records which handles have been created and
disposed and how many round-trips were performed.
-/

namespace QueryHandler

/-- A value living in the target execution context, as the controller can observe
it: either a DOM element node (with an identity) or any non-element value
(`null`, `undefined`, iterables, iterators, arrays, ...). -/
inductive RVal where
  | elem (id : Nat)
  | other
  deriving DecidableEq, Repr

/-- `true` exactly on values that denote DOM elements. -/
def isElem : RVal → Bool
  | .elem _ => true
  | .other => false

/-- A remote handle (`JSHandle` / `ElementHandle`): an opaque controller-side
reference tagged with the target value it denotes. -/
structure Handle where
  id : Nat
  val : RVal
  deriving DecidableEq, Repr

/-- `JSHandle.asElement()`: the handle itself when it denotes an element, `null`
otherwise. -/
def Handle.asElement (h : Handle) : Option Handle :=
  match h.val with
  | .elem _ => some h
  | .other => none

/-- The controller-side ledger of remote-executor activity: `nextId` is the next
fresh handle id (so ids `< nextId` have been created), `disposed` lists the
handle ids passed to `dispose` in order and with multiplicity, and `trips` counts
the `evaluateHandle` round-trips performed. -/
structure ExecState where
  nextId : Nat
  disposed : List Nat
  trips : Nat
  deriving DecidableEq, Repr

/-- The ledger before any remote activity. -/
def ExecState.start : ExecState := ⟨0, [], 0⟩

/-- One `evaluateHandle` round-trip: the target computes a value `v` and the
executor wraps it in a fresh handle. -/
def alloc (s : ExecState) (v : RVal) : Handle × ExecState :=
  (⟨s.nextId, v⟩, ⟨s.nextId + 1, s.disposed, s.trips + 1⟩)

/-- `handle.dispose()`: release the remote reference. -/
def dispose (s : ExecState) (h : Handle) : ExecState :=
  ⟨s.nextId, s.disposed ++ [h.id], s.trips⟩

/-- Body of the adapted `queryOne` (QueryHandler.ts lines 70-78): evaluate the
raw `queryOne` in the target, return the resulting handle if it denotes an
element, otherwise dispose it and return `null`. `raw root selector` is the
value the target-side raw function returns for the given root and selector. -/
def internalQueryOneImpl (raw : Nat → String → RVal) (root : Nat) (selector : String)
    (s : ExecState) : Option Handle × ExecState :=
  let (jsHandle, s1) := alloc s (raw root selector)
  match jsHandle.asElement with
  | some elementHandle => (some elementHandle, s1)
  | none => (none, dispose s1 jsHandle)

/-- The target-side iteration step `iterator.next().value`; an exhausted iterator
produces `undefined`, a non-element. -/
def targetNext : List RVal → RVal × List RVal
  | [] => (.other, [])
  | v :: vs => (v, vs)

/-- State of the async generator `generate` of the adapted `queryAll`
(QueryHandler.ts lines 96-109): about to run a loop iteration, suspended at
`yield elementHandle` with the not-yet-disposed `nextHandle` pending, or
completed. `remaining` is what the target iterator has yet to produce. -/
inductive GenState where
  | running (iter : Handle) (remaining : List RVal)
  | suspended (iter : Handle) (remaining : List RVal) (pending : Handle)
  | done
  deriving DecidableEq, Repr

/-- One iteration of the generator's `do`-loop: probe the iterator with one
`evaluateHandle` round-trip (`iterator.next().value`); if the probe handle
denotes an element, yield it (leaving the probe handle pending); otherwise
dispose the probe handle, leave the loop, and dispose the iterator handle. -/
def probe (iter : Handle) (remaining : List RVal) (s : ExecState) :
    Option Handle × GenState × ExecState :=
  let (v, remaining') := targetNext remaining
  let (nextHandle, s1) := alloc s v
  match nextHandle.asElement with
  | some elementHandle => (some elementHandle, .suspended iter remaining' nextHandle, s1)
  | none => (none, .done, dispose (dispose s1 nextHandle) iter)

/-- Pull the next value from the generator. Resuming from a `yield` first runs
`await nextHandle.dispose()` (the statement after the `yield`), then re-enters
the loop. A completed generator returns `null` with no remote activity. -/
def pull : GenState → ExecState → Option Handle × GenState × ExecState
  | .running iter remaining, s => probe iter remaining s
  | .suspended iter remaining pending, s => probe iter remaining (dispose s pending)
  | .done, s => (none, .done, s)

/-- Pull up to `n` times, collecting the yielded handles; stop as soon as the
generator reports exhaustion. -/
def pulls : Nat → GenState → ExecState → List Handle × GenState × ExecState
  | 0, g, s => ([], g, s)
  | Nat.succ n, g, s =>
    match pull g s with
    | (some h, g1, s1) =>
      let (hs, g2, s2) := pulls n g1 s1
      (h :: hs, g2, s2)
    | (none, g1, s1) => ([], g1, s1)

/-- A consumer abandoning the sequence early makes the runtime complete the
generator through `return()`. The generator body of QueryHandler.ts lines 96-109
has no `try`/`finally`, so the injected return completion at the suspended
`yield` (or at a not-yet-started body) executes no further statement of the
body: no handle is disposed. -/
def abandon : GenState → ExecState → ExecState
  | _, s => s

/-- The handles a run of the generator yields for the target values `l` when the
first probe handle gets id `b`: consecutive ids wrapping those values in order.
(Used to state what the bridge produces.) -/
def yieldHandles (b : Nat) : List RVal → List Handle
  | [] => []
  | v :: vs => ⟨b, v⟩ :: yieldHandles (b + 1) vs

/-- Body of the adapted `queryAll` (QueryHandler.ts lines 90-111) with the
possible failure of the second remote call (obtaining the iterator) made
explicit: evaluate the raw `queryAll` to obtain a handle on the iterable, obtain
the iterator handle from it, dispose the iterable handle, and return the
not-yet-started generator over the iterator handle. When the iterator-acquisition
call rejects, the failure propagates at once and the statement disposing the
iterable handle never executes; `.error` carries the ledger at that point.
`items` is the sequence of values the target-side iterable produces. -/
def internalQueryAllImplE (items : List RVal) (iterFails : Bool) (s : ExecState) :
    Except ExecState (GenState × ExecState) :=
  let (iterableHandle, s1) := alloc s .other
  if iterFails then .error s1
  else
    let (iteratorHandle, s2) := alloc s1 .other
    let s3 := dispose s2 iterableHandle
    .ok (.running iteratorHandle items, s3)

/-- The adapted `queryAll` on the path where both remote calls succeed. -/
def internalQueryAllImpl (items : List RVal) (s : ExecState) : GenState × ExecState :=
  let (iterableHandle, s1) := alloc s .other
  let (iteratorHandle, s2) := alloc s1 .other
  let s3 := dispose s2 iterableHandle
  (.running iteratorHandle items, s3)

/-- Body of the adapted `queryAllArray` (QueryHandler.ts lines 112-114): a single
`evaluateHandle` round-trip returning one handle on the whole result collection
(a non-element object); no bridging, no per-element marshaling. -/
def internalQueryAllArrayImpl (_items : List RVal) (s : ExecState) : Handle × ExecState :=
  alloc s .other

/-- A raw target-side query-function pair (`CustomQueryHandler`, QueryHandler.ts
lines 58-61): `queryOne` returns a node or `null`, `queryAll` an iterable of
nodes; both run inside the target, abstracted here as functions from a root id
and a selector to the produced value(s). Both capabilities are optional. -/
structure CustomQueryHandler where
  queryOne : Option (Nat → String → RVal) := none
  queryAll : Option (Nat → String → List RVal) := none

/-- The adapted `waitFor` (QueryHandler.ts lines 79-85) delegates to the external
context primitive `_waitForSelectorInPage`, passing the raw `queryOne` through
unchanged; the delegation is recorded as a value. -/
structure WaitForDelegation where
  raw : Nat → String → RVal

/-- The controller-facing handler (`InternalQueryHandler`, QueryHandler.ts lines
26-45): up to four independently optional capabilities. -/
structure InternalQueryHandler where
  queryOne : Option (Nat → String → ExecState → Option Handle × ExecState) := none
  queryAll : Option (Nat → String → ExecState → GenState × ExecState) := none
  waitFor : Option WaitForDelegation := none
  queryAllArray : Option (Nat → String → ExecState → Handle × ExecState) := none

/-- `createInternalQueryHandler` (QueryHandler.ts lines 63-118): start from the
empty capability record; when the raw handler supplies `queryOne`, install the
adapted `queryOne` and `waitFor`; when it supplies `queryAll`, install the
adapted `queryAll` and `queryAllArray`. The target-side behaviour of the raw
functions is threaded into the adapted operations. -/
def createInternalQueryHandler (handler : CustomQueryHandler) : InternalQueryHandler :=
  let internalHandler : InternalQueryHandler := {}
  let internalHandler :=
    match handler.queryOne with
    | some queryOne =>
      { internalHandler with
        queryOne := some (fun root selector s => internalQueryOneImpl queryOne root selector s),
        waitFor := some ⟨queryOne⟩ }
    | none => internalHandler
  match handler.queryAll with
  | some queryAll =>
    { internalHandler with
      queryAll := some (fun root selector s => internalQueryAllImpl (queryAll root selector) s),
      queryAllArray :=
        some (fun root selector s => internalQueryAllArrayImpl (queryAll root selector) s) }
  | none => internalHandler

/-- The errors this subsystem throws (QueryHandler.ts lines 185, 190, 240-242),
named as in the specification's taxonomy. -/
inductive QHError where
  | duplicateName (name : String)
  | invalidName
  | unknownEngine (name : String)
  deriving DecidableEq, Repr

/-- Modelled from the spec: the default engine's raw functions run
`querySelector` / `querySelectorAll` inside the target (QueryHandler.ts lines
120-133); DOM matching itself is out of scope, so the raw functions are opaque
target-side computations here. Only their presence matters. -/
def defaultRawHandler : CustomQueryHandler :=
  { queryOne := some (fun _ _ => .other), queryAll := some (fun _ _ => []) }

/-- `_defaultHandler` (QueryHandler.ts line 120). -/
def _defaultHandler : InternalQueryHandler :=
  createInternalQueryHandler defaultRawHandler

/-- Modelled from the spec: the shadow-piercing engine's recursive tree walk runs
entirely inside the target (QueryHandler.ts lines 135-169) and is opaque to the
controller-side design; its raw functions are abstract target-side computations. -/
def pierceRawHandler : CustomQueryHandler :=
  { queryOne := some (fun _ _ => .other), queryAll := some (fun _ _ => []) }

/-- `pierceHandler` (QueryHandler.ts line 135). -/
def pierceHandler : InternalQueryHandler :=
  createInternalQueryHandler pierceRawHandler

/-- Modelled from the spec: the accessibility-tree engine (`ariaHandler`,
imported from AriaQueryHandler.js, a file outside this subsystem) is an opaque
built-in handler; only its presence under the name `aria` matters here. -/
def ariaHandler : InternalQueryHandler :=
  { queryOne := none, queryAll := none, waitFor := none, queryAllArray := none }

/-- A JS `Map` from engine names to handlers: an insertion-ordered association
list. `Map.set` of a fresh key appends; `Map.delete` removes the entry. -/
abbrev Registry := List (String × InternalQueryHandler)

/-- `Map.get`: the value at the first (in a well-formed map, only) occurrence of
the key. -/
def mapGet (m : Registry) (name : String) : Option InternalQueryHandler :=
  match m with
  | [] => none
  | (k, v) :: rest => if k = name then some v else mapGet rest name

/-- `Map.set`: overwrite in place when the key is present, append otherwise. -/
def mapSet (m : Registry) (name : String) (handler : InternalQueryHandler) : Registry :=
  match m with
  | [] => [(name, handler)]
  | (k, v) :: rest =>
    if k = name then (k, handler) :: rest else (k, v) :: mapSet rest name handler

/-- `Map.delete`: remove the entry with the given key. -/
def mapDelete (m : Registry) (name : String) : Registry :=
  match m with
  | [] => []
  | (k, v) :: rest => if k = name then rest else (k, v) :: mapDelete rest name

/-- `builtInHandlers` (QueryHandler.ts lines 171-174). -/
def builtInHandlers : Registry :=
  [("aria", ariaHandler), ("pierce", pierceHandler)]

/-- `queryHandlers` as initialized (QueryHandler.ts line 175):
`new Map(builtInHandlers)`. Registry mutation is modelled by explicit state
passing, so this is the initial registry state. -/
def initialQueryHandlers : Registry := builtInHandlers

/-- The character class `[a-zA-Z]`. -/
def isEngineChar (c : Char) : Bool :=
  ('a' ≤ c && c ≤ 'z') || ('A' ≤ c && c ≤ 'Z')

/-- `/^[a-zA-Z]+$/.test name` (QueryHandler.ts line 188): the whole name is a
nonempty run of ASCII letters. -/
def testValidName (name : String) : Bool :=
  !name.data.isEmpty && name.data.all isEngineChar

/-- After the leading letter of `/^[a-zA-Z]+\//`: a (possibly empty) run of
letters terminated by `/`. -/
def engineThenSlash : List Char → Bool
  | [] => false
  | c :: cs => if c = '/' then true else isEngineChar c && engineThenSlash cs

/-- `/^[a-zA-Z]+\//` on a character list: a nonempty run of ASCII letters
directly followed by `/`. -/
def hasCustomQueryHandlerNameL : List Char → Bool
  | [] => false
  | c :: cs => isEngineChar c && engineThenSlash cs

/-- `/^[a-zA-Z]+\//.test selector` (QueryHandler.ts line 230). -/
def hasCustomQueryHandlerName (s : String) : Bool :=
  hasCustomQueryHandlerNameL s.data

/-- `_registerCustomQueryHandler` (QueryHandler.ts lines 180-196): reject a name
already present in the registry (built-in or custom), then reject a name failing
`/^[a-zA-Z]+$/`, otherwise adapt the raw handler and insert it. -/
def _registerCustomQueryHandler (reg : Registry) (name : String)
    (handler : CustomQueryHandler) : Except QHError Registry :=
  if (mapGet reg name).isSome then .error (.duplicateName name)
  else
    let isValidName := testValidName name
    if !isValidName then .error .invalidName
    else .ok (mapSet reg name (createInternalQueryHandler handler))

/-- `_unregisterCustomQueryHandler` (QueryHandler.ts lines 201-205): delete the
entry only when the name is present and is not a built-in; otherwise do nothing. -/
def _unregisterCustomQueryHandler (reg : Registry) (name : String) : Registry :=
  if (mapGet reg name).isSome && !(mapGet builtInHandlers name).isSome then
    mapDelete reg name
  else reg

/-- `_customQueryHandlerNames` (QueryHandler.ts lines 210-214): the registry's
keys in insertion order, with the built-in names filtered out. -/
def _customQueryHandlerNames (reg : Registry) : List String :=
  (reg.map Prod.fst).filter (fun name => !(mapGet builtInHandlers name).isSome)

/-- `_clearCustomQueryHandlers` (QueryHandler.ts lines 219-221): snapshot the
custom names, then unregister each. -/
def _clearCustomQueryHandlers (reg : Registry) : Registry :=
  (_customQueryHandlerNames reg).foldl _unregisterCustomQueryHandler reg

/-- `_getQueryHandlerAndSelector` (QueryHandler.ts lines 226-249): when the
selector has no letters-then-slash engine prefix, return the default handler and
the selector unchanged; otherwise split at the first `/`, look the prefix up in
the registry, and fail naming the engine when it is absent. -/
def _getQueryHandlerAndSelector (reg : Registry) (selector : String) :
    Except QHError (String × InternalQueryHandler) :=
  let hasCustomQueryHandler := hasCustomQueryHandlerName selector
  if !hasCustomQueryHandler then .ok (selector, _defaultHandler)
  else
    let index := selector.data.indexOf '/'
    let name : String := ⟨selector.data.take index⟩
    let updatedSelector : String := ⟨selector.data.drop (index + 1)⟩
    match mapGet reg name with
    | none => .error (.unknownEngine name)
    | some queryHandler => .ok (updatedSelector, queryHandler)

/-! ## Name-validation and selector-parsing lemmas -/

theorem validName_elim {n : String} (h : testValidName n = true) :
    n.data ≠ [] ∧ n.data.all isEngineChar = true := by
  rw [testValidName, Bool.and_eq_true, Bool.not_eq_true'] at h
  refine ⟨?_, h.2⟩
  cases hd : n.data with
  | nil => rw [hd] at h; simp at h
  | cons c cs => simp

theorem isEngineChar_ne_slash {c : Char} (h : isEngineChar c = true) : c ≠ '/' := by
  intro hc
  rw [hc] at h
  simp [isEngineChar] at h

theorem engineThenSlash_append (l r : List Char) (hall : l.all isEngineChar = true) :
    engineThenSlash (l ++ '/' :: r) = true := by
  induction l with
  | nil => simp [engineThenSlash]
  | cons c cs ih =>
    rw [List.all_cons, Bool.and_eq_true] at hall
    have hc := isEngineChar_ne_slash hall.1
    simp [engineThenSlash, hc, hall.1, ih hall.2]

theorem hasNameL_append (l r : List Char) (hne : l ≠ []) (hall : l.all isEngineChar = true) :
    hasCustomQueryHandlerNameL (l ++ '/' :: r) = true := by
  cases l with
  | nil => exact absurd rfl hne
  | cons c cs =>
    rw [List.all_cons, Bool.and_eq_true] at hall
    simp [hasCustomQueryHandlerNameL, hall.1, engineThenSlash_append cs r hall.2]

theorem indexOf_append_slash (l r : List Char) (hall : l.all isEngineChar = true) :
    (l ++ '/' :: r).indexOf '/' = l.length := by
  induction l with
  | nil => simp [List.indexOf_cons_eq]
  | cons c cs ih =>
    rw [List.all_cons, Bool.and_eq_true] at hall
    have hc := isEngineChar_ne_slash hall.1
    rw [List.cons_append, List.indexOf_cons_ne _ hc, ih hall.2, List.length_cons]

theorem engineThenSlash_split {cs : List Char} (h : engineThenSlash cs = true) :
    ∃ l r, cs = l ++ '/' :: r ∧ l.all isEngineChar = true := by
  induction cs with
  | nil => simp [engineThenSlash] at h
  | cons d ds ih =>
    by_cases hd : d = '/'
    · exact ⟨[], ds, by rw [hd]; rfl, rfl⟩
    · rw [engineThenSlash, if_neg hd, Bool.and_eq_true] at h
      obtain ⟨l, r, hsplit, hall⟩ := ih h.2
      exact ⟨d :: l, r, by rw [hsplit]; rfl, by simp [hall, h.1]⟩

theorem hasNameL_split {dl : List Char} (h : hasCustomQueryHandlerNameL dl = true) :
    ∃ l r, dl = l ++ '/' :: r ∧ l ≠ [] ∧ l.all isEngineChar = true := by
  cases dl with
  | nil => simp [hasCustomQueryHandlerNameL] at h
  | cons c cs =>
    rw [hasCustomQueryHandlerNameL, Bool.and_eq_true] at h
    obtain ⟨l, r, hsplit, hall⟩ := engineThenSlash_split h.2
    exact ⟨c :: l, r, by rw [hsplit]; rfl, by simp, by simp [hall, h.1]⟩

theorem take_indexOf_slash {dl l r : List Char} (hsplit : dl = l ++ '/' :: r)
    (hall : l.all isEngineChar = true) : dl.take (dl.indexOf '/') = l := by
  rw [hsplit, indexOf_append_slash l r hall]
  exact List.take_left l _

theorem drop_indexOf_slash {dl l r : List Char} (hsplit : dl = l ++ '/' :: r)
    (hall : l.all isEngineChar = true) : dl.drop (dl.indexOf '/' + 1) = r := by
  rw [hsplit, indexOf_append_slash l r hall]
  have h1 : l ++ '/' :: r = (l ++ ['/']) ++ r := by simp
  have h2 : l.length + 1 = (l ++ ['/']).length := by simp
  rw [h1, h2]
  exact List.drop_left _ _

/-- The engine-prefixed branch of `_getQueryHandlerAndSelector`: a selector whose
characters are a valid engine name, then `/`, then the rest, is split exactly
there and resolved through a registry lookup of the name. -/
theorem resolve_prefixed (reg : Registry) (s nm rest : String)
    (hd : s.data = nm.data ++ '/' :: rest.data) (hne : nm.data ≠ [])
    (hall : nm.data.all isEngineChar = true) :
    _getQueryHandlerAndSelector reg s =
      match mapGet reg nm with
      | none => .error (.unknownEngine nm)
      | some qh => .ok (rest, qh) := by
  have hhas : hasCustomQueryHandlerName s = true := by
    rw [hasCustomQueryHandlerName, hd]
    exact hasNameL_append nm.data rest.data hne hall
  have htake : (⟨s.data.take (s.data.indexOf '/')⟩ : String) = nm := by
    rw [take_indexOf_slash hd hall]
  have hdrop : (⟨s.data.drop (s.data.indexOf '/' + 1)⟩ : String) = rest := by
    rw [drop_indexOf_slash hd hall]
  rw [_getQueryHandlerAndSelector]
  simp only [hhas, Bool.not_true, Bool.false_eq_true, if_false, htake, hdrop]

/-! ## Association-list (JS `Map`) lemmas -/

theorem mapGet_mapSet_self (m : Registry) (n : String) (v : InternalQueryHandler) :
    mapGet (mapSet m n v) n = some v := by
  induction m with
  | nil => simp [mapGet, mapSet]
  | cons p rest ih =>
    obtain ⟨k, w⟩ := p
    by_cases hk : k = n <;> simp [mapGet, mapSet, hk, ih]

theorem mapGet_isSome_iff_mem (m : Registry) (n : String) :
    (mapGet m n).isSome = true ↔ n ∈ m.map Prod.fst := by
  induction m with
  | nil => simp [mapGet]
  | cons p rest ih =>
    obtain ⟨k, w⟩ := p
    by_cases hk : k = n
    · simp [mapGet, hk, ih]
    · simp only [List.map_cons, List.mem_cons]
      rw [mapGet, if_neg hk, ih]
      tauto

theorem mapGet_eq_none_iff (m : Registry) (n : String) :
    mapGet m n = none ↔ n ∉ m.map Prod.fst := by
  rw [← mapGet_isSome_iff_mem]
  cases mapGet m n <;> simp

theorem mapSet_of_absent (m : Registry) (n : String) (v : InternalQueryHandler)
    (h : mapGet m n = none) : mapSet m n v = m ++ [(n, v)] := by
  induction m with
  | nil => simp [mapSet]
  | cons p rest ih =>
    obtain ⟨k, w⟩ := p
    by_cases hk : k = n
    · simp [mapGet, hk] at h
    · simp [mapGet, hk] at h
      simp [mapSet, hk, ih h]

theorem mapDelete_of_absent (m : Registry) (n : String) (h : mapGet m n = none) :
    mapDelete m n = m := by
  induction m with
  | nil => simp [mapDelete]
  | cons p rest ih =>
    obtain ⟨k, w⟩ := p
    by_cases hk : k = n
    · simp [mapGet, hk] at h
    · simp [mapGet, hk] at h
      simp [mapDelete, hk, ih h]

theorem mapDelete_append_singleton (m : Registry) (n : String) (v : InternalQueryHandler)
    (h : mapGet m n = none) : mapDelete (m ++ [(n, v)]) n = m := by
  induction m with
  | nil => simp [mapDelete]
  | cons p rest ih =>
    obtain ⟨k, w⟩ := p
    by_cases hk : k = n
    · simp [mapGet, hk] at h
    · simp [mapGet, hk] at h
      simp [mapDelete, hk, ih h]

/-- Inversion of a successful registration: the name was absent, the name was
valid, and the result is exactly the insertion of the adapted handler. -/
theorem register_ok_elim {reg reg' : Registry} {n : String} {h : CustomQueryHandler}
    (hok : _registerCustomQueryHandler reg n h = .ok reg') :
    mapGet reg n = none ∧ testValidName n = true ∧
      reg' = mapSet reg n (createInternalQueryHandler h) := by
  unfold _registerCustomQueryHandler at hok
  by_cases hdup : (mapGet reg n).isSome
  · simp [hdup] at hok
  · by_cases hval : testValidName n
    · refine ⟨?_, hval, ?_⟩
      · cases hg : mapGet reg n with
        | none => rfl
        | some w => rw [hg] at hdup; simp at hdup
      · simp [hdup, hval] at hok
        exact hok.symm
    · simp [hdup, hval] at hok

/-! ## Unregister / clear lemmas -/

theorem unregister_nonbuiltin (reg : Registry) (n : String)
    (hnb : mapGet builtInHandlers n = none) :
    _unregisterCustomQueryHandler reg n = mapDelete reg n := by
  rw [_unregisterCustomQueryHandler, hnb]
  cases hg : mapGet reg n with
  | none => simp [mapDelete_of_absent reg n hg]
  | some v => simp [hg]

theorem foldl_unreg_eq_foldl_delete (ns : List String) (reg : Registry)
    (h : ∀ x ∈ ns, mapGet builtInHandlers x = none) :
    ns.foldl _unregisterCustomQueryHandler reg = ns.foldl mapDelete reg := by
  induction ns generalizing reg with
  | nil => rfl
  | cons n ns' ih =>
    rw [List.foldl_cons, List.foldl_cons,
      unregister_nonbuiltin reg n (h n (List.mem_cons_self n ns'))]
    exact ih _ (fun x hx => h x (List.mem_cons_of_mem n hx))

theorem foldl_delete_cons_of_ne (ns : List String) (k : String) (v : InternalQueryHandler)
    (reg : Registry) (h : ∀ x ∈ ns, x ≠ k) :
    ns.foldl mapDelete ((k, v) :: reg) = (k, v) :: ns.foldl mapDelete reg := by
  induction ns generalizing reg with
  | nil => rfl
  | cons n ns' ih =>
    have hk : ¬(k = n) := fun hkn => h n (List.mem_cons_self n ns') hkn.symm
    rw [List.foldl_cons, List.foldl_cons, mapDelete, if_neg hk]
    exact ih _ (fun x hx => h x (List.mem_cons_of_mem n hx))

theorem mem_customNames (reg : Registry) (x : String) :
    x ∈ _customQueryHandlerNames reg ↔
      x ∈ reg.map Prod.fst ∧ mapGet builtInHandlers x = none := by
  rw [_customQueryHandlerNames, List.mem_filter]
  cases h : mapGet builtInHandlers x <;> simp [h]

theorem customNames_cons_builtin (k : String) (v : InternalQueryHandler) (rest : Registry)
    (hb : (mapGet builtInHandlers k).isSome = true) :
    _customQueryHandlerNames ((k, v) :: rest) = _customQueryHandlerNames rest := by
  rw [_customQueryHandlerNames, List.map_cons, List.filter_cons_of_neg (by simp [hb])]
  rfl

theorem customNames_cons_custom (k : String) (v : InternalQueryHandler) (rest : Registry)
    (hb : (mapGet builtInHandlers k).isSome = false) :
    _customQueryHandlerNames ((k, v) :: rest) = k :: _customQueryHandlerNames rest := by
  rw [_customQueryHandlerNames, List.map_cons, List.filter_cons_of_pos (by simp [hb])]
  rfl

theorem clear_eq_filter (reg : Registry) :
    _clearCustomQueryHandlers reg =
      reg.filter (fun p => (mapGet builtInHandlers p.1).isSome) := by
  rw [_clearCustomQueryHandlers, foldl_unreg_eq_foldl_delete]
  · induction reg with
    | nil => rfl
    | cons p rest ih =>
      obtain ⟨k, v⟩ := p
      cases hb : (mapGet builtInHandlers k).isSome with
      | true =>
        rw [customNames_cons_builtin k v rest hb, foldl_delete_cons_of_ne, ih,
          List.filter_cons_of_pos (by simpa using hb)]
        intro x hx hxk
        have hnone := ((mem_customNames rest x).1 hx).2
        rw [hxk] at hnone
        rw [hnone] at hb
        simp at hb
      | false =>
        rw [customNames_cons_custom k v rest hb, List.foldl_cons,
          List.filter_cons_of_neg (by simp [hb])]
        have hdel : mapDelete ((k, v) :: rest) k = rest := by
          rw [mapDelete, if_pos rfl]
        rw [hdel, ih]
  · intro x hx
    exact ((mem_customNames reg x).1 hx).2

theorem customNames_clear (reg : Registry) :
    _customQueryHandlerNames (_clearCustomQueryHandlers reg) = [] := by
  rw [clear_eq_filter]
  induction reg with
  | nil => rfl
  | cons p rest ih =>
    obtain ⟨k, v⟩ := p
    cases hb : (mapGet builtInHandlers k).isSome with
    | true =>
      rw [List.filter_cons_of_pos (by simpa using hb), customNames_cons_builtin k v _ hb]
      exact ih
    | false =>
      rw [List.filter_cons_of_neg (by simp [hb])]
      exact ih

theorem mapGet_clear_of_builtin (reg : Registry) (n : String)
    (hb : (mapGet builtInHandlers n).isSome = true) :
    mapGet (_clearCustomQueryHandlers reg) n = mapGet reg n := by
  rw [clear_eq_filter]
  induction reg with
  | nil => rfl
  | cons p rest ih =>
    obtain ⟨k, v⟩ := p
    by_cases hk : k = n
    · rw [hk]
      rw [List.filter_cons_of_pos (by simpa using hb), mapGet, if_pos rfl, mapGet, if_pos rfl]
    · cases hkb : (mapGet builtInHandlers k).isSome with
      | true =>
        rw [List.filter_cons_of_pos (by simpa using hkb), mapGet, if_neg hk, mapGet, if_neg hk]
        exact ih
      | false =>
        rw [List.filter_cons_of_neg (by simp [hkb]), mapGet, if_neg hk]
        exact ih

/-! ## Claim C4 -/

/-- C4: `_registerCustomQueryHandler` fails with the duplicate-name error when
the name is already present (built-in or custom), fails with the invalid-name
error when an absent name does not match `^[A-Za-z]+$`, and on failure the
registry is unchanged: in particular, after a successful registration a second
registration of the same name fails with the duplicate-name error and the first
registration is still intact. -/
theorem claimC4 (reg : Registry) (n : String) (h : CustomQueryHandler) :
    ((mapGet reg n).isSome = true →
      _registerCustomQueryHandler reg n h = .error (.duplicateName n)) ∧
    (mapGet reg n = none → testValidName n = false →
      _registerCustomQueryHandler reg n h = .error .invalidName) ∧
    (∀ (h' : CustomQueryHandler) (reg' : Registry),
      _registerCustomQueryHandler reg n h = .ok reg' →
      _registerCustomQueryHandler reg' n h' = .error (.duplicateName n) ∧
        mapGet reg' n = some (createInternalQueryHandler h)) := by
  refine ⟨?_, ?_, ?_⟩
  · intro hdup
    simp [_registerCustomQueryHandler, hdup]
  · intro habs hval
    simp [_registerCustomQueryHandler, habs, hval]
  · intro h' reg' hok
    obtain ⟨habs, hval, hreg⟩ := register_ok_elim hok
    have hget : mapGet reg' n = some (createInternalQueryHandler h) := by
      rw [hreg]; exact mapGet_mapSet_self reg n _
    refine ⟨?_, hget⟩
    simp [_registerCustomQueryHandler, hget]

/-- Witness for C4 at concrete inputs: registering `"foo"` into the initial
registry succeeds, re-registering it fails with the duplicate-name error while
the first entry survives, and an invalid name is rejected. -/
theorem claimC4_witness :
    _registerCustomQueryHandler initialQueryHandlers "foo" {} =
        .ok (mapSet initialQueryHandlers "foo" (createInternalQueryHandler {})) ∧
    _registerCustomQueryHandler
        (mapSet initialQueryHandlers "foo" (createInternalQueryHandler {})) "foo" {} =
      .error (.duplicateName "foo") ∧
    _registerCustomQueryHandler initialQueryHandlers "1bad" {} = .error .invalidName := by
  have hreg : _registerCustomQueryHandler initialQueryHandlers "foo" {} =
      .ok (mapSet initialQueryHandlers "foo" (createInternalQueryHandler {})) := by
    simp [_registerCustomQueryHandler, mapGet, mapSet, initialQueryHandlers, builtInHandlers,
      testValidName, isEngineChar]
  refine ⟨hreg, ((claimC4 initialQueryHandlers "foo" {}).2.2 {} _ hreg).1, ?_⟩
  exact (claimC4 initialQueryHandlers "1bad" {}).2.1 rfl (by decide)

/-! ## Claim C5 -/

/-- C5: for every name matching `^[A-Za-z]+$` that is not already registered and
every raw handler, registration succeeds (inserting the adapted handler), and
resolving the selector `name ++ "/x"` afterwards returns the adapted handler
with updated selector `"x"`. -/
theorem claimC5 (reg : Registry) (n : String) (h : CustomQueryHandler)
    (hval : testValidName n = true) (habs : mapGet reg n = none) :
    _registerCustomQueryHandler reg n h =
      .ok (mapSet reg n (createInternalQueryHandler h)) ∧
    _getQueryHandlerAndSelector (mapSet reg n (createInternalQueryHandler h)) (n ++ "/x") =
      .ok ("x", createInternalQueryHandler h) := by
  obtain ⟨hne, hall⟩ := validName_elim hval
  refine ⟨by simp [_registerCustomQueryHandler, habs, hval], ?_⟩
  have hd : (n ++ "/x").data = n.data ++ '/' :: ("x" : String).data := by
    rw [String.data_append]
  rw [resolve_prefixed _ (n ++ "/x") n "x" hd hne hall,
    mapGet_mapSet_self reg n (createInternalQueryHandler h)]

/-- Witness for C5: registering the valid, fresh name `"custom"` into the
initial registry succeeds and `"custom/x"` then resolves to the adapted handler
with selector `"x"`. -/
theorem claimC5_witness :
    _registerCustomQueryHandler initialQueryHandlers "custom" {} =
      .ok (mapSet initialQueryHandlers "custom" (createInternalQueryHandler {})) ∧
    _getQueryHandlerAndSelector
        (mapSet initialQueryHandlers "custom" (createInternalQueryHandler {})) "custom/x" =
      .ok ("x", createInternalQueryHandler {}) :=
  claimC5 initialQueryHandlers "custom" {} (by decide) rfl

/-! ## Claim C6 -/

/-- C6: for every selector without a letters-then-slash engine prefix — even one
containing `/` later in the string — resolution returns the default handler and
the selector unchanged; for every selector with such a prefix, resolution splits
exactly at the first `/` (the prefix, a nonempty run of letters, is the engine
name; the remainder after the separator is the updated selector, and the
selector is exactly their concatenation), returns the registered handler of that
name when present, and fails with the unknown-engine error naming that engine
when absent. -/
theorem claimC6 (reg : Registry) (s : String) :
    (hasCustomQueryHandlerName s = false →
      _getQueryHandlerAndSelector reg s = .ok (s, _defaultHandler)) ∧
    (hasCustomQueryHandlerName s = true →
      1 ≤ s.data.indexOf '/' ∧
      (s.data.take (s.data.indexOf '/')).all isEngineChar = true ∧
      s.data = s.data.take (s.data.indexOf '/') ++ '/' :: s.data.drop (s.data.indexOf '/' + 1) ∧
      (mapGet reg ⟨s.data.take (s.data.indexOf '/')⟩ = none →
        _getQueryHandlerAndSelector reg s =
          .error (.unknownEngine ⟨s.data.take (s.data.indexOf '/')⟩)) ∧
      (∀ qh, mapGet reg ⟨s.data.take (s.data.indexOf '/')⟩ = some qh →
        _getQueryHandlerAndSelector reg s =
          .ok (⟨s.data.drop (s.data.indexOf '/' + 1)⟩, qh))) := by
  constructor
  · intro hno
    rw [_getQueryHandlerAndSelector]
    simp only [hno]
    rfl
  · intro hyes
    have hyes' : hasCustomQueryHandlerNameL s.data = true := hyes
    obtain ⟨l, r, hsplit, hne, hall⟩ := hasNameL_split hyes'
    have htake := take_indexOf_slash hsplit hall
    have hdrop := drop_indexOf_slash hsplit hall
    have hlen : s.data.indexOf '/' = l.length := by
      rw [hsplit]; exact indexOf_append_slash l r hall
    refine ⟨?_, by rw [htake]; exact hall, by rw [htake, hdrop]; exact hsplit, ?_, ?_⟩
    · rw [hlen]
      cases l with
      | nil => exact absurd rfl hne
      | cons c cs => simp
    · intro hnone
      have hres := resolve_prefixed reg s ⟨l⟩ ⟨r⟩ (by rw [hsplit]) hne hall
      rw [htake] at hnone ⊢
      rw [hres, hnone]
    · intro qh hsome
      have hres := resolve_prefixed reg s ⟨l⟩ ⟨r⟩ (by rw [hsplit]) hne hall
      rw [htake] at hsome
      rw [hdrop, hres, hsome]

/-- Witness for C6: `"a b/c"` has no engine prefix (despite containing `/`) and
resolves to the default handler unchanged; `"aria/[x]/y"` splits at the first
`/` only and resolves to the built-in aria handler; `"foo/x"` fails with the
unknown-engine error naming `"foo"`. -/
theorem claimC6_witness :
    _getQueryHandlerAndSelector initialQueryHandlers "a b/c" =
      .ok ("a b/c", _defaultHandler) ∧
    _getQueryHandlerAndSelector initialQueryHandlers "aria/[x]/y" =
      .ok ("[x]/y", ariaHandler) ∧
    _getQueryHandlerAndSelector initialQueryHandlers "foo/x" =
      .error (.unknownEngine "foo") := by
  refine ⟨(claimC6 initialQueryHandlers "a b/c").1 (by decide), ?_, ?_⟩
  · have h := ((claimC6 initialQueryHandlers "aria/[x]/y").2 (by decide)).2.2.2.2
      ariaHandler rfl
    exact h
  · have h := ((claimC6 initialQueryHandlers "foo/x").2 (by decide)).2.2.2.1 rfl
    exact h

/-! ## Claim C7 -/

/-- C7: built-in entries can never be removed. Unregistering a built-in or
absent name is a silent no-op, `_customQueryHandlerNames` never lists a built-in
name, and `_clearCustomQueryHandlers` removes exactly the non-built-in entries:
afterwards the custom-name list is empty, every built-in-named entry is
unchanged, and a built-in-prefixed selector still resolves to the same handler. -/
theorem claimC7 :
    (∀ (reg : Registry) (n : String),
      (mapGet builtInHandlers n).isSome = true ∨ mapGet reg n = none →
      _unregisterCustomQueryHandler reg n = reg) ∧
    (∀ (reg : Registry) (n : String),
      n ∈ _customQueryHandlerNames reg → mapGet builtInHandlers n = none) ∧
    (∀ reg : Registry, _customQueryHandlerNames (_clearCustomQueryHandlers reg) = []) ∧
    (∀ (reg : Registry) (n : String), (mapGet builtInHandlers n).isSome = true →
      mapGet (_clearCustomQueryHandlers reg) n = mapGet reg n) ∧
    (∀ (reg : Registry) (qh : InternalQueryHandler), mapGet reg "aria" = some qh →
      _getQueryHandlerAndSelector (_clearCustomQueryHandlers reg) "aria/x" =
        .ok ("x", qh)) := by
  refine ⟨?_, ?_, customNames_clear, mapGet_clear_of_builtin, ?_⟩
  · intro reg n hcase
    rw [_unregisterCustomQueryHandler]
    rcases hcase with hb | habs
    · rw [hb]
      simp
    · rw [habs]
      simp
  · intro reg n hmem
    exact ((mem_customNames reg n).1 hmem).2
  · intro reg qh hget
    have hres := resolve_prefixed (_clearCustomQueryHandlers reg) "aria/x" "aria" "x"
      rfl (by decide) (by decide)
    have hb : (mapGet builtInHandlers "aria").isSome = true := rfl
    rw [hres, mapGet_clear_of_builtin reg "aria" hb, hget]

/-- Witness for C7 at concrete inputs: unregistering the built-in `"aria"` and
the absent `"nope"` from the initial registry are no-ops; after registering
three custom engines, clearing leaves no custom names and `"aria/x"` still
resolves to the aria handler. -/
theorem claimC7_witness :
    _unregisterCustomQueryHandler initialQueryHandlers "aria" = initialQueryHandlers ∧
    _unregisterCustomQueryHandler initialQueryHandlers "nope" = initialQueryHandlers ∧
    _customQueryHandlerNames
        (_clearCustomQueryHandlers
          (mapSet (mapSet (mapSet initialQueryHandlers "one" ariaHandler) "two" ariaHandler)
            "three" ariaHandler)) = [] ∧
    _getQueryHandlerAndSelector (_clearCustomQueryHandlers initialQueryHandlers) "aria/x" =
      .ok ("x", ariaHandler) :=
  ⟨claimC7.1 initialQueryHandlers "aria" (Or.inl rfl),
   claimC7.1 initialQueryHandlers "nope" (Or.inr rfl),
   claimC7.2.2.1 _,
   claimC7.2.2.2.2 initialQueryHandlers ariaHandler rfl⟩

/-! ## Claim C9 -/

/-- C9: for every non-built-in name, a successful registration followed by
unregistration restores the previous registry, and registering the same name
again (with any handler) succeeds: removal makes a custom name reusable. -/
theorem claimC9 (reg reg' : Registry) (n : String) (h h' : CustomQueryHandler)
    (hnb : mapGet builtInHandlers n = none)
    (hok : _registerCustomQueryHandler reg n h = .ok reg') :
    _unregisterCustomQueryHandler reg' n = reg ∧
    _registerCustomQueryHandler (_unregisterCustomQueryHandler reg' n) n h' =
      .ok (mapSet reg n (createInternalQueryHandler h')) := by
  obtain ⟨habs, hval, hreg'⟩ := register_ok_elim hok
  have hunreg : _unregisterCustomQueryHandler reg' n = reg := by
    rw [hreg', unregister_nonbuiltin _ n hnb, mapSet_of_absent reg n _ habs,
      mapDelete_append_singleton reg n _ habs]
  refine ⟨hunreg, ?_⟩
  rw [hunreg]
  simp [_registerCustomQueryHandler, habs, hval]

/-- Witness for C9: register `"custom"` into the initial registry, unregister
it, and register it again with a different raw handler. -/
theorem claimC9_witness :
    _unregisterCustomQueryHandler
        (mapSet initialQueryHandlers "custom" (createInternalQueryHandler {})) "custom" =
      initialQueryHandlers ∧
    _registerCustomQueryHandler
        (_unregisterCustomQueryHandler
          (mapSet initialQueryHandlers "custom" (createInternalQueryHandler {})) "custom")
        "custom" pierceRawHandler =
      .ok (mapSet initialQueryHandlers "custom"
        (createInternalQueryHandler pierceRawHandler)) := by
  have hok : _registerCustomQueryHandler initialQueryHandlers "custom" {} =
      .ok (mapSet initialQueryHandlers "custom" (createInternalQueryHandler {})) := by
    simp [_registerCustomQueryHandler, mapGet, initialQueryHandlers, builtInHandlers,
      testValidName, isEngineChar]
  exact claimC9 initialQueryHandlers _ "custom" {} pierceRawHandler rfl hok

/-! ## Claim C10 -/

/-- C10: `_customQueryHandlerNames` lists exactly the currently registered
non-built-in names in registration (insertion) order: initially it is empty, a
successful registration of a non-built-in name appends that name, and a name is
listed precisely when it is a registry key and not a built-in. -/
theorem claimC10 :
    (_customQueryHandlerNames initialQueryHandlers = []) ∧
    (∀ (reg reg' : Registry) (n : String) (h : CustomQueryHandler),
      mapGet builtInHandlers n = none →
      _registerCustomQueryHandler reg n h = .ok reg' →
      _customQueryHandlerNames reg' = _customQueryHandlerNames reg ++ [n]) ∧
    (∀ (reg : Registry) (n : String),
      n ∈ _customQueryHandlerNames reg ↔
        ((mapGet reg n).isSome = true ∧ mapGet builtInHandlers n = none)) := by
  refine ⟨rfl, ?_, ?_⟩
  · intro reg reg' n h hnb hok
    obtain ⟨habs, _, hreg'⟩ := register_ok_elim hok
    rw [hreg', mapSet_of_absent reg n _ habs, _customQueryHandlerNames, List.map_append,
      List.filter_append]
    have hsingle : ([(n, createInternalQueryHandler h)].map Prod.fst).filter
        (fun name => !(mapGet builtInHandlers name).isSome) = [n] := by
      rw [List.map_cons, List.map_nil, List.filter_cons_of_pos (by simp [hnb])]
      rfl
    rw [hsingle]
    rfl
  · intro reg n
    rw [mem_customNames, mapGet_isSome_iff_mem]

/-- Witness for C10: after registering `"custom"` into the initial registry the
custom-name list is exactly `["custom"]`, which contains `"custom"` and not the
built-in `"aria"`. -/
theorem claimC10_witness :
    _customQueryHandlerNames initialQueryHandlers = [] ∧
    _customQueryHandlerNames
        (mapSet initialQueryHandlers "custom" (createInternalQueryHandler {})) = ["custom"] ∧
    "custom" ∈ _customQueryHandlerNames
        (mapSet initialQueryHandlers "custom" (createInternalQueryHandler {})) ∧
    "aria" ∉ _customQueryHandlerNames
        (mapSet initialQueryHandlers "custom" (createInternalQueryHandler {})) := by
  have hok : _registerCustomQueryHandler initialQueryHandlers "custom" {} =
      .ok (mapSet initialQueryHandlers "custom" (createInternalQueryHandler {})) := by
    simp [_registerCustomQueryHandler, mapGet, initialQueryHandlers, builtInHandlers,
      testValidName, isEngineChar]
  have happ := claimC10.2.1 initialQueryHandlers _ "custom" {} rfl hok
  rw [claimC10.1] at happ
  refine ⟨claimC10.1, happ, ?_, ?_⟩
  · rw [(claimC10.2.2 _ "custom")]
    exact ⟨rfl, rfl⟩
  · rw [(claimC10.2.2 _ "aria")]
    rintro ⟨-, hb⟩
    simp [builtInHandlers, mapGet] at hb

/-! ## Remote-iterator bridge lemmas -/

theorem asElement_of_elem {b : Nat} {v : RVal} (hv : isElem v = true) :
    (Handle.mk b v).asElement = some ⟨b, v⟩ := by
  cases v with
  | elem i => rfl
  | other => simp [isElem] at hv

theorem asElement_of_nonelem {b : Nat} {v : RVal} (hv : isElem v = false) :
    (Handle.mk b v).asElement = none := by
  cases v with
  | elem i => simp [isElem] at hv
  | other => rfl

theorem takeWhile_all_isElem (l : List RVal) :
    (l.takeWhile isElem).all isElem = true := by
  induction l with
  | nil => rfl
  | cons v vs ih => by_cases hv : isElem v <;> simp [List.takeWhile_cons, hv, ih]

theorem dropWhile_stop (l : List RVal) :
    isElem (targetNext (l.dropWhile isElem)).1 = false := by
  induction l with
  | nil => rfl
  | cons v vs ih =>
    by_cases hv : isElem v
    · rw [List.dropWhile_cons, if_pos hv]
      exact ih
    · rw [List.dropWhile_cons, if_neg hv, targetNext]
      exact Bool.not_eq_true _ ▸ Bool.of_not_eq_true hv

theorem yieldHandles_map_val (b : Nat) (l : List RVal) :
    (yieldHandles b l).map Handle.val = l := by
  induction l generalizing b with
  | nil => rfl
  | cons v vs ih => rw [yieldHandles, List.map_cons, ih]

/-- Resuming a suspended generator first disposes the pending probe handle, then
behaves like re-entering the loop. -/
theorem pulls_suspended_eq (n : Nat) (iter : Handle) (l : List RVal) (p : Handle)
    (s : ExecState) :
    pulls (n + 1) (.suspended iter l p) s = pulls (n + 1) (.running iter l) (dispose s p) :=
  rfl

/-- A pull that probes an element value yields the fresh probe handle and
suspends. -/
theorem pulls_succ_of_elem (n : Nat) (iter : Handle) (v : RVal) (l : List RVal)
    (s : ExecState) (hv : isElem v = true) :
    pulls (n + 1) (.running iter (v :: l)) s =
      ((⟨s.nextId, v⟩ : Handle) ::
          (pulls n (.suspended iter l ⟨s.nextId, v⟩) ⟨s.nextId + 1, s.disposed, s.trips + 1⟩).1,
       (pulls n (.suspended iter l ⟨s.nextId, v⟩) ⟨s.nextId + 1, s.disposed, s.trips + 1⟩).2) := by
  cases v with
  | elem i => rfl
  | other => simp [isElem] at hv

/-- A pull that probes a non-element value disposes the probe handle, then the
iterator handle, and completes without yielding. -/
theorem pulls_stop_probe (n : Nat) (iter : Handle) (l : List RVal) (s : ExecState)
    (hstop : isElem (targetNext l).1 = false) :
    pulls (n + 1) (.running iter l) s =
      ([], .done,
       ⟨s.nextId + 1, (s.disposed ++ [s.nextId]) ++ [iter.id], s.trips + 1⟩) := by
  cases l with
  | nil => rfl
  | cons v vs =>
    rw [targetNext] at hstop
    cases v with
    | elem i => simp [isElem] at hstop
    | other => rfl

/-- Running the generator over a leading block of element values: each of the
`j + 1` pulls performs exactly one probe round-trip, yields the handles on those
values in order, and disposes the previous pending probe handle; the generator
is left suspended on the last yielded handle. -/
theorem pullsElems (j : Nat) (v : RVal) (vs rest : List RVal) (iter : Handle)
    (s : ExecState) (hj : j ≤ vs.length) (hall : (v :: vs).all isElem = true) :
    pulls (j + 1) (.running iter (v :: vs ++ rest)) s =
      (yieldHandles s.nextId ((v :: vs).take (j + 1)),
       .suspended iter ((v :: vs).drop (j + 1) ++ rest) ⟨s.nextId + j, (v :: vs).getD j .other⟩,
       ⟨s.nextId + j + 1, s.disposed ++ List.range' s.nextId j, s.trips + j + 1⟩) := by
  induction j generalizing v vs s with
  | zero =>
    rw [List.all_cons, Bool.and_eq_true] at hall
    rw [List.cons_append, pulls_succ_of_elem 0 iter v (vs ++ rest) s hall.1]
    simp [pulls, yieldHandles, List.getD]
  | succ j ih =>
    rw [List.all_cons, Bool.and_eq_true] at hall
    cases vs with
    | nil => simp at hj
    | cons w ws =>
      rw [List.cons_append, pulls_succ_of_elem (j + 1) iter v ((w :: ws) ++ rest) s hall.1,
        pulls_suspended_eq, dispose]
      dsimp only
      rw [ih w ws ⟨s.nextId + 1, s.disposed ++ [s.nextId], s.trips + 1⟩
        (Nat.le_of_succ_le_succ hj) hall.2]
      refine Prod.ext ?_ (Prod.ext ?_ ?_) <;> simp [yieldHandles, List.range'_succ] <;> omega

/-- Running the generator to its stopping pull over a leading block of element
values followed by a non-element: all yields, then the stopping probe disposes
its own handle and the iterator handle and the generator completes; the ledger
shows one probe per pull and the exact dispose sequence. -/
theorem pullsStop (es rest : List RVal) (iter : Handle) (s : ExecState)
    (hall : es.all isElem = true) (hstop : isElem (targetNext rest).1 = false) :
    pulls (es.length + 1) (.running iter (es ++ rest)) s =
      (yieldHandles s.nextId es, .done,
       ⟨s.nextId + es.length + 1,
        s.disposed ++ List.range' s.nextId es.length ++ [s.nextId + es.length, iter.id],
        s.trips + es.length + 1⟩) := by
  induction es generalizing s with
  | nil =>
    simp only [List.length_nil, List.nil_append]
    rw [pulls_stop_probe 0 iter rest s hstop]
    refine Prod.ext rfl (Prod.ext rfl ?_)
    simp [yieldHandles]
  | cons v es' ih =>
    rw [List.all_cons, Bool.and_eq_true] at hall
    rw [List.cons_append, List.length_cons,
      pulls_succ_of_elem (es'.length + 1) iter v (es' ++ rest) s hall.1,
      pulls_suspended_eq, dispose]
    dsimp only
    rw [ih ⟨s.nextId + 1, s.disposed ++ [s.nextId], s.trips + 1⟩ hall.2]
    refine Prod.ext ?_ (Prod.ext rfl ?_)
    · simp [yieldHandles, List.range'_succ]
    · simp only [List.range'_succ, ExecState.mk.injEq]
      refine ⟨by omega, ?_, by omega⟩
      simp
      omega

/-! ## Claim C1 -/

/-- C1: the adapted `queryAll` acquires the iterable and iterator handles and
disposes the iterable handle, returning the unstarted generator; the lazy
sequence then yields exactly the handles on the values the target iterator
produces, in the iterator's order, with exactly one probe round-trip per pull
(no prefetch: after `m` pulls exactly `m` probes have happened), and the pull
that meets the first value not denoting an element disposes that probe handle
and stops the sequence. -/
theorem claimC1 (items : List RVal) (s : ExecState) :
    internalQueryAllImpl items s =
      (.running ⟨s.nextId + 1, .other⟩ items,
       ⟨s.nextId + 2, s.disposed ++ [s.nextId], s.trips + 2⟩) ∧
    (∀ (iter : Handle) (s' : ExecState) (m : Nat),
      m ≤ (items.takeWhile isElem).length →
      (pulls m (.running iter items) s').1.map Handle.val =
        (items.takeWhile isElem).take m ∧
      (pulls m (.running iter items) s').2.2.trips = s'.trips + m) ∧
    (∀ (iter : Handle) (s' : ExecState),
      pulls ((items.takeWhile isElem).length + 1) (.running iter items) s' =
        (yieldHandles s'.nextId (items.takeWhile isElem), .done,
         ⟨s'.nextId + (items.takeWhile isElem).length + 1,
          s'.disposed ++ List.range' s'.nextId (items.takeWhile isElem).length ++
            [s'.nextId + (items.takeWhile isElem).length, iter.id],
          s'.trips + (items.takeWhile isElem).length + 1⟩)) := by
  refine ⟨rfl, ?_, ?_⟩
  · intro iter s' m hm
    cases m with
    | zero => simp [pulls]
    | succ j =>
      cases hes : items.takeWhile isElem with
      | nil =>
        rw [hes] at hm
        simp at hm
      | cons v vs =>
        have hitems : items = (v :: vs) ++ items.dropWhile isElem := by
          conv_lhs => rw [← List.takeWhile_append_dropWhile isElem items]
          rw [hes]
        have hall : (v :: vs).all isElem = true := by
          rw [← hes]
          exact takeWhile_all_isElem items
        have hj : j ≤ vs.length := by
          rw [hes] at hm
          simpa using hm
        have hp := pullsElems j v vs (items.dropWhile isElem) iter s' hj hall
        rw [← hitems] at hp
        rw [hp]
        exact ⟨yieldHandles_map_val _ _, rfl⟩
  · intro iter s'
    have hp := pullsStop (items.takeWhile isElem) (items.dropWhile isElem) iter s'
      (takeWhile_all_isElem items) (dropWhile_stop items)
    rw [List.takeWhile_append_dropWhile] at hp
    exact hp

/-- Witness for C1 at a target iterable producing two elements then a
non-element: one pull yields the first element only (one probe round-trip), and
three pulls yield both elements in order, then stop, with the probe, iterator
and intermediate handles disposed as claimed. -/
theorem claimC1_witness :
    (pulls 1 (.running ⟨1, .other⟩ [RVal.elem 7, RVal.elem 8, RVal.other])
        ⟨2, [0], 2⟩).1.map Handle.val = [RVal.elem 7] ∧
    (pulls 1 (.running ⟨1, .other⟩ [RVal.elem 7, RVal.elem 8, RVal.other])
        ⟨2, [0], 2⟩).2.2.trips = 3 ∧
    pulls 3 (.running ⟨1, .other⟩ [RVal.elem 7, RVal.elem 8, RVal.other]) ⟨2, [0], 2⟩ =
      (yieldHandles 2 [RVal.elem 7, RVal.elem 8], .done, ⟨5, [0, 2, 3, 4, 1], 5⟩) := by
  have h2 := (claimC1 [RVal.elem 7, RVal.elem 8, RVal.other] ExecState.start).2.1
    ⟨1, .other⟩ ⟨2, [0], 2⟩ 1 (by decide)
  have h3 := (claimC1 [RVal.elem 7, RVal.elem 8, RVal.other] ExecState.start).2.2
    ⟨1, .other⟩ ⟨2, [0], 2⟩
  refine ⟨by simpa [List.takeWhile, isElem] using h2.1, by simpa using h2.2, ?_⟩
  simpa [List.takeWhile, isElem, List.range'] using h3

/-! ## Claim C2 -/

/-- C2 as stated fails on the code: the generator body has no `try`/`finally`,
so two exit paths leak. Evaluating the bridge at a target iterable producing
`elem 7, elem 8, <non-element>`: after the consumer pulls once (receiving
`elem 7`) and abandons the sequence, only the iterable handle (id 0) has ever
been disposed — the iterator handle (id 1) is never disposed. And when the
remote call acquiring the iterator fails, the error surfaces with the
already-acquired iterable handle (id 0, the only handle created) undisposed. -/
theorem claimC2_leak :
    ((pulls 1 (internalQueryAllImpl [RVal.elem 7, RVal.elem 8, RVal.other] ExecState.start).1
        (internalQueryAllImpl [RVal.elem 7, RVal.elem 8, RVal.other] ExecState.start).2).1.map
          Handle.val = [RVal.elem 7] ∧
     (pulls 1 (internalQueryAllImpl [RVal.elem 7, RVal.elem 8, RVal.other] ExecState.start).1
        (internalQueryAllImpl [RVal.elem 7, RVal.elem 8, RVal.other] ExecState.start).2).2.1 =
       .suspended ⟨1, .other⟩ [RVal.elem 8, RVal.other] ⟨2, RVal.elem 7⟩ ∧
     abandon
        (pulls 1 (internalQueryAllImpl [RVal.elem 7, RVal.elem 8, RVal.other] ExecState.start).1
          (internalQueryAllImpl [RVal.elem 7, RVal.elem 8, RVal.other] ExecState.start).2).2.1
        (pulls 1 (internalQueryAllImpl [RVal.elem 7, RVal.elem 8, RVal.other] ExecState.start).1
          (internalQueryAllImpl [RVal.elem 7, RVal.elem 8, RVal.other] ExecState.start).2).2.2 =
       ⟨3, [0], 3⟩ ∧
     (abandon
        (pulls 1 (internalQueryAllImpl [RVal.elem 7, RVal.elem 8, RVal.other] ExecState.start).1
          (internalQueryAllImpl [RVal.elem 7, RVal.elem 8, RVal.other] ExecState.start).2).2.1
        (pulls 1 (internalQueryAllImpl [RVal.elem 7, RVal.elem 8, RVal.other] ExecState.start).1
          (internalQueryAllImpl [RVal.elem 7, RVal.elem 8, RVal.other] ExecState.start).2).2.2).disposed.count
          1 = 0) ∧
    internalQueryAllImplE [RVal.elem 7] true ExecState.start = .error ⟨1, [], 1⟩ :=
  ⟨by decide, rfl⟩

/-! ## Claim C3 -/

/-- C3: the adapted `queryOne` returns the remote handle exactly when the
evaluated result denotes a DOM element (and then performs no disposal); when the
result is a non-element it disposes that handle and returns `null`; it never
returns a handle that fails the `asElement` classification. -/
theorem claimC3 (raw : Nat → String → RVal) (root : Nat) (selector : String)
    (s : ExecState) :
    (∀ h, (internalQueryOneImpl raw root selector s).1 = some h →
      h.asElement = some h) ∧
    (∀ i, raw root selector = .elem i →
      internalQueryOneImpl raw root selector s =
        (some ⟨s.nextId, .elem i⟩, ⟨s.nextId + 1, s.disposed, s.trips + 1⟩)) ∧
    (raw root selector = .other →
      internalQueryOneImpl raw root selector s =
        (none, ⟨s.nextId + 1, s.disposed ++ [s.nextId], s.trips + 1⟩)) := by
  refine ⟨?_, ?_, ?_⟩
  · intro h hres
    cases hr : raw root selector with
    | elem i =>
      rw [internalQueryOneImpl] at hres
      simp only [hr, alloc, Handle.asElement] at hres
      cases hres
      rfl
    | other =>
      rw [internalQueryOneImpl] at hres
      simp only [hr, alloc, Handle.asElement] at hres
      exact Option.noConfusion hres
  · intro i hr
    rw [internalQueryOneImpl]
    simp only [hr, alloc, Handle.asElement]
  · intro hr
    rw [internalQueryOneImpl]
    simp only [hr, alloc, Handle.asElement, dispose]

/-- Witness for C3: a raw function finding element 3 has its handle returned
(classified as an element), and a raw function returning `null` yields `none`
with the probe handle disposed. -/
theorem claimC3_witness :
    internalQueryOneImpl (fun _ _ => RVal.elem 3) 0 "sel" ExecState.start =
      (some ⟨0, RVal.elem 3⟩, ⟨1, [], 1⟩) ∧
    (Handle.mk 0 (RVal.elem 3)).asElement = some ⟨0, RVal.elem 3⟩ ∧
    internalQueryOneImpl (fun _ _ => RVal.other) 0 "sel" ExecState.start =
      (none, ⟨1, [0], 1⟩) := by
  refine ⟨?_, ?_, ?_⟩
  · exact (claimC3 (fun _ _ => RVal.elem 3) 0 "sel" ExecState.start).2.1 3 rfl
  · exact (claimC3 (fun _ _ => RVal.elem 3) 0 "sel" ExecState.start).1 ⟨0, RVal.elem 3⟩ rfl
  · exact (claimC3 (fun _ _ => RVal.other) 0 "sel" ExecState.start).2.2 rfl

/-! ## Claim C8 -/

/-- C8: the adapter mirrors capabilities exactly — the internal handler has
`queryOne` and `waitFor` precisely when the raw handler supplies `queryOne`, and
has `queryAll` and `queryAllArray` precisely when the raw handler supplies
`queryAll`; an omitted raw capability yields an omitted internal capability. -/
theorem claimC8 (handler : CustomQueryHandler) :
    ((createInternalQueryHandler handler).queryOne.isSome = handler.queryOne.isSome) ∧
    ((createInternalQueryHandler handler).waitFor.isSome = handler.queryOne.isSome) ∧
    ((createInternalQueryHandler handler).queryAll.isSome = handler.queryAll.isSome) ∧
    ((createInternalQueryHandler handler).queryAllArray.isSome = handler.queryAll.isSome) := by
  obtain ⟨q1, qa⟩ := handler
  cases q1 <;> cases qa <;> simp [createInternalQueryHandler]

end QueryHandler
